import Mathlib

/-!
Verification of the durable alarm subsystem of the `actor-kit` repository.

The definitions below are a shallow embedding of the TypeScript sources:
* `src/src/storage.ts` — the SQLite-backed persistence layer (`ActorKitStorage`),
* `src/src/alarms.ts` — the `AlarmManager` (queue + wakeup slot multiplexing),
* the XState timer-adapter module (scheduler, `NOOP_CLOCK`,
  `restoreScheduledEvents`, `getScheduledEvents`).

The `alarms` SQL table is modelled as a `List AlarmRow` maintained in insertion
order; `SELECT ... ORDER BY scheduled_at ASC` is modelled by a stable insertion
sort on that list.  `JSON.parse` / `JSON.stringify` on alarm payloads are
external builtins of the host language; they are passed in as explicit
parameters (`jparse`, `jprint`) over an abstract payload type `J`, and
exceptions are modelled with `Except`.  `Date.now()` is passed in as an
explicit `now : Int` (wall-clock milliseconds).
-/

namespace ActorKit

/-- A row of the `alarms` table (interface `AlarmRecord` in `storage.ts`).
`repeat_interval` and `payload` are nullable columns. -/
structure AlarmRow where
  id : String
  type : String
  scheduled_at : Int
  repeat_interval : Option Int
  payload : Option String
  created_at : Int
deriving DecidableEq, Repr

/-- An alarm with parsed payload (interface `Alarm` in `alarms.ts`);
`J` is the type of parsed JSON payloads. -/
structure Alarm (J : Type) where
  id : String
  type : String
  scheduledAt : Int
  repeatInterval : Option Int
  payload : J
  createdAt : Int
deriving DecidableEq, Repr

/-- Result record of handling one due alarm (interface `AlarmHandleResult`). -/
structure AlarmHandleResult where
  id : String
  type : String
  rescheduled : Bool
  deleted : Bool
deriving DecidableEq, Repr

/-- Options passed to `schedule` / `updateAlarm`
(interface `ScheduleAlarmOptions`), with parsed payload. -/
structure ScheduleAlarmOptions (J : Type) where
  id : String
  type : String
  scheduledAt : Int
  repeatInterval : Option Int
  payload : J
deriving DecidableEq, Repr

/-- Comparison used by `ORDER BY scheduled_at ASC`. -/
def rowLE (a b : AlarmRow) : Prop := a.scheduled_at ≤ b.scheduled_at

instance : DecidableRel rowLE := fun _ _ => inferInstanceAs (Decidable (_ ≤ _))

/-- `ORDER BY scheduled_at ASC` over the table, as a stable sort. -/
def sortRows (tbl : List AlarmRow) : List AlarmRow :=
  tbl.insertionSort rowLE

/-- `ActorKitStorage.getDueAlarms(before)`:
`SELECT ... WHERE scheduled_at <= ? ORDER BY scheduled_at ASC`. -/
def dueAlarmRows (before : Int) (tbl : List AlarmRow) : List AlarmRow :=
  sortRows (tbl.filter (fun r => r.scheduled_at ≤ before))

/-- `ActorKitStorage.getEarliestAlarm()`:
`SELECT ... ORDER BY scheduled_at ASC LIMIT 1`. -/
def getEarliestAlarm (tbl : List AlarmRow) : Option AlarmRow :=
  (sortRows tbl).head?

/-- `ActorKitStorage.deleteAlarm(id)`: `DELETE FROM alarms WHERE id = ?`. -/
def deleteAlarmRows (id : String) (tbl : List AlarmRow) : List AlarmRow :=
  tbl.filter (fun r => ¬ (r.id = id))

/-- `ActorKitStorage.updateAlarm(options)`:
`UPDATE alarms SET scheduled_at = ?, repeat_interval = ?, payload = ? WHERE id = ?`
(`payload` is written as `JSON.stringify(options.payload)`; the `type` and
`created_at` columns are not in the SET list). -/
def updateAlarmRows {J : Type} (jprint : J → String)
    (opts : ScheduleAlarmOptions J) (tbl : List AlarmRow) : List AlarmRow :=
  tbl.map (fun r =>
    if r.id = opts.id then
      { r with scheduled_at := opts.scheduledAt,
               repeat_interval := opts.repeatInterval,
               payload := some (jprint opts.payload) }
    else r)

/-- `ActorKitStorage.insertAlarm(options)`:
`INSERT INTO alarms (id, type, scheduled_at, repeat_interval, payload, created_at)`.
The `id` column is declared `TEXT PRIMARY KEY` in the schema, so the INSERT
fails (and changes nothing) when a row with the same id already exists;
`created_at` is `Date.now()`, passed here as `now`. -/
def insertAlarmRows {J : Type} (jprint : J → String) (now : Int)
    (opts : ScheduleAlarmOptions J) (tbl : List AlarmRow) :
    Except String (List AlarmRow) :=
  if tbl.any (fun r => r.id = opts.id) then
    Except.error "UNIQUE constraint failed: alarms.id"
  else
    Except.ok (tbl ++ [{ id := opts.id, type := opts.type,
                         scheduled_at := opts.scheduledAt,
                         repeat_interval := opts.repeatInterval,
                         payload := some (jprint opts.payload),
                         created_at := now }])

/-- `AlarmManager.parseAlarmRecord(record)`: parses the `payload` column with
`JSON.parse` (which throws on invalid JSON — modelled by `Except`); a `NULL`
payload becomes the empty object `jempty`; `repeat_interval ?? undefined`
is the identity on `Option`. -/
def parseAlarmRecord {J : Type} (jparse : String → Except String J) (jempty : J)
    (r : AlarmRow) : Except String (Alarm J) :=
  match r.payload with
  | none => Except.ok ⟨r.id, r.type, r.scheduled_at, r.repeat_interval, jempty, r.created_at⟩
  | some s =>
      match jparse s with
      | Except.error e => Except.error e
      | Except.ok j =>
          Except.ok ⟨r.id, r.type, r.scheduled_at, r.repeat_interval, j, r.created_at⟩

/-- `records.map(this.parseAlarmRecord)` in `getDueAlarms`: a JavaScript `map`
whose callback throws propagates the first exception, producing no array. -/
def parseAll {J : Type} (jparse : String → Except String J) (jempty : J) :
    List AlarmRow → Except String (List (Alarm J))
  | [] => Except.ok []
  | r :: rs =>
      match parseAlarmRecord jparse jempty r with
      | Except.error e => Except.error e
      | Except.ok a =>
          match parseAll jparse jempty rs with
          | Except.error e => Except.error e
          | Except.ok as_ => Except.ok (a :: as_)

/-- Outcome of one `AlarmManager.handleDueAlarms` drain:
the `alarms` table after the drain, the returned result records, the alarms
passed to the handler (in invocation order), the handler errors that were
caught and logged by `console.error`, and — when the payload parse inside
`getDueAlarms` threw — the propagated exception (in that case nothing was
mutated and no handler ran, since `records.map(parseAlarmRecord)` runs
before the loop). -/
structure DrainResult (J : Type) where
  table : List AlarmRow
  results : List AlarmHandleResult
  handled : List (Alarm J)
  handlerErrors : List String
  failed : Option String
deriving Repr

/-- One iteration of the `for (const alarm of dueAlarms)` loop body in
`handleDueAlarms`, up to (not including) the handler call: the storage
mutation and the result record.  `if (alarm.repeatInterval)` is JavaScript
truthiness on a `number | undefined`: `undefined` and `0` are falsy. -/
def stepAlarm {J : Type} (jprint : J → String) (now : Int)
    (tbl : List AlarmRow) (a : Alarm J) : List AlarmRow × AlarmHandleResult :=
  match a.repeatInterval with
  | some iv =>
      if iv ≠ 0 then
        (updateAlarmRows jprint
          ⟨a.id, a.type, now + iv, some iv, a.payload⟩ tbl,
         ⟨a.id, a.type, true, false⟩)
      else (deleteAlarmRows a.id tbl, ⟨a.id, a.type, false, true⟩)
  | none => (deleteAlarmRows a.id tbl, ⟨a.id, a.type, false, true⟩)

/-- The result record pushed for one due alarm (`results.push({...})` in
`handleDueAlarms`): `rescheduled`/`deleted` depend only on the truthiness of
`alarm.repeatInterval`. -/
def resultRecord {J : Type} (a : Alarm J) : AlarmHandleResult :=
  match a.repeatInterval with
  | some iv => if iv ≠ 0 then ⟨a.id, a.type, true, false⟩ else ⟨a.id, a.type, false, true⟩
  | none => ⟨a.id, a.type, false, true⟩

/-- The cumulative effect of the drain loop on the `alarms` table. -/
def applyDue {J : Type} (jprint : J → String) (now : Int)
    (due : List (Alarm J)) (tbl : List AlarmRow) : List AlarmRow :=
  due.foldl (fun t a => (stepAlarm jprint now t a).1) tbl

/-- The `for` loop of `handleDueAlarms`: for each due alarm, mutate storage
(`updateAlarm` for truthy `repeatInterval`, else `deleteAlarm`), then invoke
the handler inside `try/catch` (a thrown error is logged and swallowed),
then push the result record. -/
def drainLoop {J : Type} (jprint : J → String) (now : Int)
    (handler : Alarm J → Except String Bool) :
    List (Alarm J) → List AlarmRow → DrainResult J
  | [], tbl => ⟨tbl, [], [], [], none⟩
  | a :: rest, tbl =>
      let tr := stepAlarm jprint now tbl a
      let logs : List String :=
        match handler a with
        | Except.error e => [e]
        | Except.ok _ => []
      let d := drainLoop jprint now handler rest tr.1
      ⟨d.table, tr.2 :: d.results, a :: d.handled, logs ++ d.handlerErrors, d.failed⟩

/-- `AlarmManager.handleDueAlarms(handler)` up to the final
`rescheduleNextAlarm()` call (which touches only the volatile armed-slot
fields, modelled separately by `rescheduleNextAlarm` below, never the
`alarms` table): snapshot `now`, fetch the due rows, parse them
(`getDueAlarms` maps `parseAlarmRecord`, so a payload parse exception
propagates before any mutation), then run the loop. -/
def handleDueAlarms {J : Type} (jparse : String → Except String J)
    (jprint : J → String) (jempty : J) (now : Int)
    (handler : Alarm J → Except String Bool) (tbl : List AlarmRow) :
    DrainResult J :=
  match parseAll jparse jempty (dueAlarmRows now tbl) with
  | Except.error e => ⟨tbl, [], [], [], some e⟩
  | Except.ok due => drainLoop jprint now handler due tbl

/-- The volatile armed-slot fields of `AlarmManager`
(`currentAlarmId`, `currentAlarmTime`). -/
structure AMState where
  currentAlarmId : Option String
  currentAlarmTime : Option Int
deriving DecidableEq, Repr

/-- `AlarmManager.rescheduleNextAlarm()`: read the earliest alarm; if none,
clear both volatile fields (no platform call — there is no disarm); if the
earliest differs from the volatile pair, record it and call
`state.storage.setAlarm(earliest.scheduled_at)`.  The second component is
the list of `setAlarm` calls made (deadline arguments, in order). -/
def rescheduleNextAlarm (tbl : List AlarmRow) (s : AMState) :
    AMState × List Int :=
  match getEarliestAlarm tbl with
  | none => (⟨none, none⟩, [])
  | some e =>
      if s.currentAlarmId ≠ some e.id ∨ s.currentAlarmTime ≠ some e.scheduled_at then
        (⟨some e.id, some e.scheduled_at⟩, [e.scheduled_at])
      else (s, [])

/-- `AlarmManager.schedule(options)`: `insertAlarm` then
`rescheduleNextAlarm`.  A thrown insert error propagates to the caller
before the rearm runs, leaving table and volatile state untouched (a failed
SQLite INSERT mutates nothing); the components are the table, the volatile
state, the `setAlarm` calls made, and the propagated error if any. -/
def schedule {J : Type} (jprint : J → String) (now : Int)
    (opts : ScheduleAlarmOptions J) (tbl : List AlarmRow) (s : AMState) :
    List AlarmRow × AMState × List Int × Option String :=
  match insertAlarmRows jprint now opts tbl with
  | Except.error e => (tbl, s, [], some e)
  | Except.ok tbl' =>
      let sc := rescheduleNextAlarm tbl' s
      (tbl', sc.1, sc.2, none)

/-! ### Result-set normalization (`ActorKitStorage.parseRows`)

`sql.exec` may return one of three shapes: an asynchronously iterable cursor
of `{columns, results}` batches, an array of batches, or a single batch
object (wrapped as `[result]`); a batch object carries its column list under
`columns` or `columnNames` and its row list under `rows` or `results`.
Cell values are modelled by an abstract type `V`; a decoded record is the
ordered list of `(column, cell)` pairs the JS code builds with
`obj[col] = row[i]` (an out-of-range index reads as `undefined`, i.e.
`none`). -/

/-- A batch as consumed by the non-cursor branch of `parseRows`: each of the
four optional properties may be present or absent. -/
structure ExecBatch (V : Type) where
  columns : Option (List String)
  columnNames : Option (List String)
  rows : Option (List (List V))
  results : Option (List (List V))
deriving DecidableEq, Repr

/-- A batch yielded by the cursor shape
(`{ columns: string[]; results: (...)[][] }`). -/
structure CursorBatch (V : Type) where
  columns : List String
  results : List (List V)
deriving DecidableEq, Repr

/-- `obj[col] = row[i]` for each column in order. -/
def decodeRow {V : Type} (columns : List String) (row : List V) :
    List (String × Option V) :=
  columns.mapIdx (fun i c => (c, row.get? i))

/-- The cursor branch of `parseRows`: the column list is latched from the
first batch (`if (!columns) columns = batch.columns`), and every row of
every batch is decoded with it. -/
def parseRowsCursor {V : Type} (batches : List (CursorBatch V)) :
    List (List (String × Option V)) :=
  match batches with
  | [] => []
  | b0 :: _ => (batches.flatMap (fun b => b.results)).map (decodeRow b0.columns)

/-- The non-cursor branch of `parseRows` applied to an array of batches:
only `batches[0]` is read; its columns are `first?.columns ?? first?.columnNames ?? []`
and its rows `first?.rows ?? first?.results ?? []`; empty columns or empty
rows yield `[]`. -/
def parseRowsBatches {V : Type} (batches : List (ExecBatch V)) :
    List (List (String × Option V)) :=
  match batches with
  | [] => []
  | first :: _ =>
      let columns := first.columns.getD (first.columnNames.getD [])
      let rows := first.rows.getD (first.results.getD [])
      if columns.isEmpty || rows.isEmpty then []
      else rows.map (decodeRow columns)

/-- The non-cursor branch applied to a single non-array result object
(`Array.isArray(result)` false, truthy `result` ↦ `[result]`). -/
def parseRowsSingle {V : Type} (b : ExecBatch V) :
    List (List (String × Option V)) :=
  parseRowsBatches [b]

/-! ### The XState timer adapter module

`ScheduledEventSnapshot`, `NOOP_CLOCK`, the module-level `scheduledEventsMap`,
`getScheduledEvents` and `restoreScheduledEvents`.  The FSM event object is
opaque JSON; it is modelled by `String`. -/

/-- Interface `ScheduledEventSnapshot`. -/
structure ScheduledEventSnapshot where
  sourceSessionId : String
  targetSessionId : String
  event : String
  delay : Int
  id : String
  startedAt : Int
deriving DecidableEq, Repr

/-- The payload persisted with an `xstate-delay` alarm
(interface `XStateAlarmData`); `ptype` is the `type` discriminant field. -/
structure XStateAlarmData where
  ptype : String
  sourceSessionId : String
  targetSessionId : String
  event : String
  scheduledEventId : String
  alarmId : String
deriving DecidableEq, Repr

/-- The element shape consumed by `restoreScheduledEvents`:
`{ payload: XStateAlarmData; scheduledAt: number }`. -/
structure PersistedAlarm where
  payload : XStateAlarmData
  scheduledAt : Int
deriving DecidableEq, Repr

/-- The `scheduledEventsMap`, a JavaScript `Map` keyed by
`scheduledEventId`: an insertion-ordered association list where `set` on an
existing key overwrites in place. -/
abbrev EventMap := List (String × ScheduledEventSnapshot)

/-- `Map.prototype.set`: overwrite in place if the key exists, else append. -/
def mapSet (k : String) (v : ScheduledEventSnapshot) : EventMap → EventMap
  | [] => [(k, v)]
  | (k', v') :: rest =>
      if k' = k then (k, v) :: rest else (k', v') :: mapSet k v rest

/-- Key membership in the map. -/
def mapMem (k : String) (m : EventMap) : Prop := k ∈ m.map Prod.fst

instance (k : String) (m : EventMap) : Decidable (mapMem k m) :=
  inferInstanceAs (Decidable (k ∈ m.map Prod.fst))

/-- `scheduledEventId.split(".").pop() || scheduledEventId`: the last
dot-component, with the full key as fallback when that component is the
empty string (falsy). -/
def lastDotComponent (k : String) : String :=
  let t := (k.splitOn ".").getLastD k
  if t = "" then k else t

/-- `restoreScheduledEvents(alarms)`: for each alarm whose payload `type` is
`"xstate-delay"`, compute `delay = scheduledAt - Date.now()` and, only when
`delay > 0`, `set` an index entry rebuilt from the payload
(`startedAt = scheduledAt - delay`). -/
def restoreScheduledEvents (now : Int) (alarms : List PersistedAlarm)
    (m : EventMap) : EventMap :=
  alarms.foldl (fun m alarm =>
    if alarm.payload.ptype = "xstate-delay" then
      let delay := alarm.scheduledAt - now
      if delay > 0 then
        mapSet alarm.payload.scheduledEventId
          ⟨alarm.payload.sourceSessionId, alarm.payload.targetSessionId,
           alarm.payload.event, delay,
           lastDotComponent alarm.payload.scheduledEventId,
           alarm.scheduledAt - delay⟩ m
      else m
    else m) m

/-- `NOOP_CLOCK.setTimeout: () => Math.random()`.  The callback and delay are
ignored and nothing is scheduled; the returned token is the output of
`Math.random()`, an ECMAScript builtin producing a number `r` with
`0 ≤ r < 1`, modelled as an explicit argument. -/
def noopSetTimeout (_fn : Unit → Unit) (_delay : Int) (rand : ℚ) : ℚ := rand

/-- `NOOP_CLOCK.clearTimeout: () => {}` — a no-op for every input. -/
def noopClearTimeout (_id : ℚ) : Unit := ()

/-! ### Object identity for `getScheduledEvents`

`getScheduledEvents` is `return new Map(scheduledEventsMap)`.  To state that
the returned `Map` is a distinct object (mutating it does not touch the
module's `scheduledEventsMap`), `Map` objects are given explicit identities:
a heap maps addresses to `EventMap` contents, the module-level map lives at
`internalAddr`, and `new Map(x)` allocates a fresh address holding a copy of
`x`'s entries. -/

/-- A heap of `Map` objects: `store` maps addresses to contents,
`internalAddr` is the address of the module-level `scheduledEventsMap`, and
`nextAddr` is the next fresh address. -/
structure MapHeap where
  store : List (Nat × EventMap)
  internalAddr : Nat
  nextAddr : Nat
deriving Repr

/-- Association lookup over the heap's address map. -/
def heapLookup (a : Nat) : List (Nat × EventMap) → Option EventMap
  | [] => none
  | (k, v) :: rest => if a = k then some v else heapLookup a rest

/-- Read the `Map` object at an address. -/
def heapGet (h : MapHeap) (a : Nat) : EventMap :=
  (heapLookup a h.store).getD []

/-- Heap well-formedness: every allocated address (the internal one
included) is below `nextAddr`. -/
def heapWF (h : MapHeap) : Prop :=
  h.internalAddr < h.nextAddr ∧ ∀ p ∈ h.store, p.1 < h.nextAddr

/-- `new Map(entries)`: allocate a distinct `Map` object with the given
entries and return its address. -/
def heapAlloc (h : MapHeap) (m : EventMap) : MapHeap × Nat :=
  (⟨(h.nextAddr, m) :: h.store, h.internalAddr, h.nextAddr + 1⟩, h.nextAddr)

/-- Overwrite the contents of the `Map` object at address `a`. -/
def heapSetAt (h : MapHeap) (a : Nat) (m : EventMap) : MapHeap :=
  { h with store := h.store.map (fun p => if p.1 = a then (a, m) else p) }

/-- `m.set(k, v)` performed on the `Map` object at address `a`. -/
def heapMapSet (h : MapHeap) (a : Nat) (k : String)
    (v : ScheduledEventSnapshot) : MapHeap :=
  heapSetAt h a (mapSet k v (heapGet h a))

/-- `m.delete(k)` performed on the `Map` object at address `a`. -/
def heapMapDelete (h : MapHeap) (a : Nat) (k : String) : MapHeap :=
  heapSetAt h a ((heapGet h a).filter (fun p => ¬ (p.1 = k)))

/-- `getScheduledEvents()`: `return new Map(scheduledEventsMap)` — allocate
a fresh `Map` holding a copy of the internal map's entries and return its
address. -/
def getScheduledEvents (h : MapHeap) : MapHeap × Nat :=
  heapAlloc h (heapGet h h.internalAddr)

/-! ### Helper lemmas -/

section DrainLemmas

variable {J : Type} (jparse : String → Except String J) (jprint : J → String)
  (jempty : J)

theorem stepAlarm_snd (now : Int) (tbl : List AlarmRow) (a : Alarm J) :
    (stepAlarm jprint now tbl a).2 = resultRecord a := by
  unfold stepAlarm resultRecord
  cases a.repeatInterval with
  | none => rfl
  | some iv => by_cases h : iv ≠ 0 <;> simp [h]

theorem drainLoop_table (now : Int) (handler : Alarm J → Except String Bool)
    (due : List (Alarm J)) (tbl : List AlarmRow) :
    (drainLoop jprint now handler due tbl).table = applyDue jprint now due tbl := by
  induction due generalizing tbl with
  | nil => rfl
  | cons a rest ih => simp [drainLoop, applyDue, List.foldl_cons, ih, applyDue]

theorem drainLoop_results (now : Int) (handler : Alarm J → Except String Bool)
    (due : List (Alarm J)) (tbl : List AlarmRow) :
    (drainLoop jprint now handler due tbl).results = due.map resultRecord := by
  induction due generalizing tbl with
  | nil => rfl
  | cons a rest ih => simp [drainLoop, ih, stepAlarm_snd]

theorem drainLoop_handled (now : Int) (handler : Alarm J → Except String Bool)
    (due : List (Alarm J)) (tbl : List AlarmRow) :
    (drainLoop jprint now handler due tbl).handled = due := by
  induction due generalizing tbl with
  | nil => rfl
  | cons a rest ih => simp [drainLoop, ih]

theorem drainLoop_failed (now : Int) (handler : Alarm J → Except String Bool)
    (due : List (Alarm J)) (tbl : List AlarmRow) :
    (drainLoop jprint now handler due tbl).failed = none := by
  induction due generalizing tbl with
  | nil => rfl
  | cons a rest ih => simp [drainLoop, ih]

/-- Fields other than the payload survive `parseAlarmRecord` unchanged. -/
theorem parseAlarmRecord_fields {r : AlarmRow} {a : Alarm J}
    (h : parseAlarmRecord jparse jempty r = Except.ok a) :
    a.id = r.id ∧ a.type = r.type ∧ a.scheduledAt = r.scheduled_at ∧
      a.repeatInterval = r.repeat_interval := by
  unfold parseAlarmRecord at h
  split at h
  · cases h; exact ⟨rfl, rfl, rfl, rfl⟩
  · split at h
    · cases h
    · cases h; exact ⟨rfl, rfl, rfl, rfl⟩

/-- A successful `parseAll` relates rows and alarms pointwise. -/
theorem parseAll_forall₂ {l : List AlarmRow} {as_ : List (Alarm J)}
    (h : parseAll jparse jempty l = Except.ok as_) :
    List.Forall₂ (fun r a => parseAlarmRecord jparse jempty r = Except.ok a) l as_ := by
  induction l generalizing as_ with
  | nil => cases h; exact List.Forall₂.nil
  | cons r rs ih =>
      unfold parseAll at h
      cases hr : parseAlarmRecord jparse jempty r with
      | error e => rw [hr] at h; cases h
      | ok a =>
          rw [hr] at h
          cases hrs : parseAll jparse jempty rs with
          | error e => rw [hrs] at h; cases h
          | ok rest => rw [hrs] at h; cases h; exact List.Forall₂.cons hr (ih hrs)

/-- `parseAll` fails whenever some element fails to parse. -/
theorem parseAll_error_of_mem {l : List AlarmRow} {r : AlarmRow} {e : String}
    (hm : r ∈ l) (hr : parseAlarmRecord jparse jempty r = Except.error e) :
    ∃ e', parseAll jparse jempty l = Except.error e' := by
  induction l with
  | nil => cases hm
  | cons x xs ih =>
      rcases List.mem_cons.mp hm with h | h
      · subst h
        exact ⟨e, by unfold parseAll; rw [hr]⟩
      · cases hx : parseAlarmRecord jparse jempty x with
        | error e' => exact ⟨e', by unfold parseAll; rw [hx]⟩
        | ok a =>
            rcases ih h with ⟨e', he'⟩
            exact ⟨e', by unfold parseAll; rw [hx, he']⟩

end DrainLemmas

section FilterLemmas

variable {J : Type}

/-- In a table whose ids are distinct (the `PRIMARY KEY` invariant), the rows
carrying the id of a member `r` are exactly `[r]`. -/
theorem filter_id_of_nodup {tbl : List AlarmRow} {r : AlarmRow}
    (hnd : (tbl.map AlarmRow.id).Nodup) (hr : r ∈ tbl) :
    tbl.filter (fun x => x.id = r.id) = [r] := by
  induction tbl with
  | nil => cases hr
  | cons x xs ih =>
      rw [List.map_cons, List.nodup_cons] at hnd
      rcases List.mem_cons.mp hr with h | h
      · subst h
        have hx : ∀ y ∈ xs, ¬ ((fun x => decide (x.id = r.id)) y = true) := by
          intro y hy hEq
          rw [decide_eq_true_iff] at hEq
          exact hnd.1 (hEq ▸ List.mem_map_of_mem AlarmRow.id hy)
        rw [List.filter_cons, if_pos (by simp), List.filter_eq_nil_iff.mpr hx]
      · have hxid : ¬ (x.id = r.id) := by
          intro hEq
          exact hnd.1 (hEq ▸ List.mem_map_of_mem AlarmRow.id h)
        rw [List.filter_cons, if_neg (by simpa using hxid)]
        exact ih hnd.2 h

/-- A singleton filter decomposes the list around the unique satisfying
element. -/
theorem filter_eq_single_decomp {α : Type} {p : α → Bool} {l : List α} {x : α}
    (h : l.filter p = [x]) :
    ∃ l₁ l₂, l = l₁ ++ x :: l₂ ∧ (∀ y ∈ l₁, p y = false) ∧
      (∀ y ∈ l₂, p y = false) := by
  induction l with
  | nil => cases h
  | cons a as ih =>
      rw [List.filter_cons] at h
      by_cases ha : p a = true
      · rw [if_pos ha] at h
        injection h with h1 h2
        subst h1
        refine ⟨[], as, rfl, ?_, ?_⟩
        · intro y hy; cases hy
        · intro y hy
          have := List.filter_eq_nil_iff.mp h2 y hy
          simpa using this
      · rw [if_neg ha] at h
        rcases ih h with ⟨l₁, l₂, heq, h₁, h₂⟩
        refine ⟨a :: l₁, l₂, by rw [heq]; rfl, ?_, h₂⟩
        intro y hy
        rcases List.mem_cons.mp hy with h' | h'
        · subst h'; simpa using ha
        · exact h₁ y h'

/-- Across a pointwise relation preserving the predicates, an all-false list
maps to an empty filter. -/
theorem forall₂_filter_nil {α β : Type} {R : α → β → Prop}
    {p : α → Bool} {q : β → Bool} {l : List α} {as_ : List β}
    (hF : List.Forall₂ R l as_) (hpq : ∀ y b, R y b → p y = q b)
    (h : ∀ y ∈ l, p y = false) : as_.filter q = [] := by
  induction hF with
  | nil => rfl
  | @cons y b l' as' hR hF' ih =>
      rw [List.filter_cons,
        if_neg (by rw [← hpq y b hR, h y (List.mem_cons_self y l')]; simp)]
      exact ih (fun z hz => h z (List.mem_cons_of_mem y hz))

/-- Transfer a singleton filter across a pointwise relation that preserves
the predicate. -/
theorem forall₂_filter_single {α β : Type} {R : α → β → Prop}
    {p : α → Bool} {q : β → Bool} {l : List α} {as_ : List β} {x : α}
    (hF : List.Forall₂ R l as_) (hpq : ∀ y b, R y b → p y = q b)
    (h : l.filter p = [x]) :
    ∃ b, as_.filter q = [b] ∧ R x b := by
  induction hF with
  | nil => cases h
  | @cons y b l' as' hR hF' ih =>
      rw [List.filter_cons] at h
      by_cases hy : p y = true
      · rw [if_pos hy] at h
        injection h with h1 h2
        subst h1
        refine ⟨b, ?_, hR⟩
        rw [List.filter_cons, if_pos (by rw [← hpq _ b hR]; exact hy)]
        rw [forall₂_filter_nil hF' hpq (fun z hz => by
          have := List.filter_eq_nil_iff.mp h2 z hz
          simpa using this)]
      · rw [if_neg hy] at h
        rcases ih h with ⟨b', hb', hR'⟩
        refine ⟨b', ?_, hR'⟩
        rw [List.filter_cons, if_neg (by rw [← hpq y b hR]; simpa using hy)]
        exact hb'

theorem filter_swap {α : Type} (p q : α → Bool) (l : List α) :
    (l.filter q).filter p = (l.filter p).filter q := by
  rw [List.filter_filter, List.filter_filter]
  congr 1
  funext a
  rw [Bool.and_comm]

end FilterLemmas

section TableLemmas

variable {J : Type} (jprint : J → String)

/-- After `deleteAlarm(s)` no row carries id `s`. -/
theorem filterid_delete_self (s : String) (tbl : List AlarmRow) :
    (deleteAlarmRows s tbl).filter (fun x => x.id = s) = [] := by
  rw [List.filter_eq_nil_iff]
  intro x hx
  have hpx := (List.mem_filter.mp hx).2
  simp only [decide_eq_true_iff] at hpx ⊢
  exact hpx

/-- `deleteAlarm(d)` leaves the rows of any other id untouched. -/
theorem filterid_delete_ne {s d : String} (hne : s ≠ d) (tbl : List AlarmRow) :
    (deleteAlarmRows d tbl).filter (fun x => x.id = s)
      = tbl.filter (fun x => x.id = s) := by
  unfold deleteAlarmRows
  rw [filter_swap]
  rw [List.filter_eq_self.mpr]
  intro x hx
  have := (List.mem_filter.mp hx).2
  simp only [decide_eq_true_iff] at this ⊢
  rw [this]
  exact hne

/-- Filtering on an id commutes with an id-preserving row transformation. -/
theorem filter_id_map_pres {f : AlarmRow → AlarmRow}
    (hf : ∀ r, (f r).id = r.id) (s : String) (tbl : List AlarmRow) :
    (tbl.map f).filter (fun x => x.id = s)
      = (tbl.filter (fun x => x.id = s)).map f := by
  rw [List.filter_map]
  congr 1
  apply List.filter_congr
  intro x _
  simp [Function.comp, hf]

/-- The per-row rewrite performed by `updateAlarmRows` keeps the id. -/
theorem updateRow_id (opts : ScheduleAlarmOptions J) (r : AlarmRow) :
    (if r.id = opts.id then
      { r with scheduled_at := opts.scheduledAt,
               repeat_interval := opts.repeatInterval,
               payload := some (jprint opts.payload) }
     else r).id = r.id := by
  by_cases h : r.id = opts.id <;> simp [h]

/-- `updateAlarm(opts)` leaves the rows of any other id untouched. -/
theorem filterid_update_ne {s : String} (opts : ScheduleAlarmOptions J)
    (hne : s ≠ opts.id) (tbl : List AlarmRow) :
    (updateAlarmRows jprint opts tbl).filter (fun x => x.id = s)
      = tbl.filter (fun x => x.id = s) := by
  unfold updateAlarmRows
  rw [filter_id_map_pres (updateRow_id jprint opts) s tbl]
  have : ∀ x ∈ tbl.filter (fun x => x.id = s),
      (if x.id = opts.id then
        { x with scheduled_at := opts.scheduledAt,
                 repeat_interval := opts.repeatInterval,
                 payload := some (jprint opts.payload) }
       else x) = x := by
    intro x hx
    have hxs := (List.mem_filter.mp hx).2
    simp only [decide_eq_true_iff] at hxs
    rw [if_neg (by rw [hxs]; exact hne)]
  rw [List.map_congr_left this]
  simp

/-- `updateAlarm(opts)` rewrites exactly the rows carrying `opts.id`. -/
theorem filterid_update_self (opts : ScheduleAlarmOptions J)
    (tbl : List AlarmRow) :
    (updateAlarmRows jprint opts tbl).filter (fun x => x.id = opts.id)
      = (tbl.filter (fun x => x.id = opts.id)).map (fun r =>
          { r with scheduled_at := opts.scheduledAt,
                   repeat_interval := opts.repeatInterval,
                   payload := some (jprint opts.payload) }) := by
  unfold updateAlarmRows
  rw [filter_id_map_pres (updateRow_id jprint opts) opts.id tbl]
  apply List.map_congr_left
  intro x hx
  have hxs := (List.mem_filter.mp hx).2
  simp only [decide_eq_true_iff] at hxs
  rw [if_pos hxs]

/-- One loop iteration for an alarm of a different id leaves the rows of id
`s` untouched. -/
theorem step_filterid_ne (now : Int) {s : String} (tbl : List AlarmRow)
    (a : Alarm J) (hne : a.id ≠ s) :
    ((stepAlarm jprint now tbl a).1).filter (fun x => x.id = s)
      = tbl.filter (fun x => x.id = s) := by
  rcases hri : a.repeatInterval with _ | iv
  · simp only [stepAlarm, hri]
    exact filterid_delete_ne (Ne.symm hne) tbl
  · simp only [stepAlarm, hri]
    by_cases h : iv ≠ 0
    · rw [if_pos h]
      exact filterid_update_ne jprint
        ⟨a.id, a.type, now + iv, some iv, a.payload⟩ (Ne.symm hne) tbl
    · rw [if_neg h]
      exact filterid_delete_ne (Ne.symm hne) tbl

/-- A run of loop iterations over alarms of other ids leaves the rows of id
`s` untouched. -/
theorem applyDue_filterid_ne (now : Int) {s : String} (due : List (Alarm J))
    (tbl : List AlarmRow) (h : ∀ a ∈ due, a.id ≠ s) :
    (applyDue jprint now due tbl).filter (fun x => x.id = s)
      = tbl.filter (fun x => x.id = s) := by
  induction due generalizing tbl with
  | nil => rfl
  | cons a rest ih =>
      have : applyDue jprint now (a :: rest) tbl
          = applyDue jprint now rest ((stepAlarm jprint now tbl a).1) := rfl
      rw [this, ih _ (fun b hb => h b (List.mem_cons_of_mem a hb)),
        step_filterid_ne jprint now tbl a (h a (List.mem_cons_self a rest))]

/-- The due query returns exactly one row of a due member id when the table
ids are distinct. -/
theorem dueRows_filter_id {now : Int} {tbl : List AlarmRow} {r : AlarmRow}
    (hnd : (tbl.map AlarmRow.id).Nodup) (hr : r ∈ tbl)
    (hdue : r.scheduled_at ≤ now) :
    (dueAlarmRows now tbl).filter (fun x => x.id = r.id) = [r] := by
  have hperm : (dueAlarmRows now tbl).Perm
      (tbl.filter (fun x => x.scheduled_at ≤ now)) :=
    List.perm_insertionSort _ _
  have h1 : (tbl.filter (fun x => x.scheduled_at ≤ now)).filter
      (fun x => x.id = r.id) = [r] := by
    rw [filter_swap, filter_id_of_nodup hnd hr, List.filter_cons,
      if_pos (by simpa using hdue)]
    rfl
  exact List.perm_singleton.mp (h1 ▸ hperm.filter (fun x => decide (x.id = r.id)))

end TableLemmas

section RecordLemmas

variable {J : Type}

theorem resultRecord_id (a : Alarm J) : (resultRecord a).id = a.id := by
  unfold resultRecord
  rcases a.repeatInterval with _ | iv
  · rfl
  · by_cases h : iv ≠ 0 <;> simp [h]

theorem resultRecord_of_none {a : Alarm J} (h : a.repeatInterval = none) :
    resultRecord a = ⟨a.id, a.type, false, true⟩ := by
  unfold resultRecord; rw [h]

theorem resultRecord_of_some {a : Alarm J} {iv : Int}
    (h : a.repeatInterval = some iv) (hnz : iv ≠ 0) :
    resultRecord a = ⟨a.id, a.type, true, false⟩ := by
  unfold resultRecord; rw [h]; simp [hnz]

end RecordLemmas

section MapLemmas

/-- `Map.set` adds exactly its own key to the key set. -/
theorem mapMem_mapSet (k k' : String) (v : ScheduledEventSnapshot)
    (m : EventMap) : mapMem k (mapSet k' v m) ↔ k = k' ∨ mapMem k m := by
  induction m with
  | nil => simp [mapSet, mapMem]
  | cons p rest ih =>
      obtain ⟨k₀, v₀⟩ := p
      by_cases h : k₀ = k'
      · rw [show mapSet k' v ((k₀, v₀) :: rest) = (k', v) :: rest from by
          simp [mapSet, h]]
        subst h
        simp only [mapMem, List.map_cons, List.mem_cons]
        tauto
      · rw [show mapSet k' v ((k₀, v₀) :: rest)
            = (k₀, v₀) :: mapSet k' v rest from by simp [mapSet, h]]
        simp only [mapMem, List.map_cons, List.mem_cons] at ih ⊢
        rw [ih]
        tauto

end MapLemmas

section HeapLemmas

/-- Rewriting the entries stored under address `a` does not change lookups
at any other address. -/
theorem heapLookup_cons (b x : Nat) (y : EventMap)
    (l : List (Nat × EventMap)) :
    heapLookup b ((x, y) :: l) = if b = x then some y else heapLookup b l :=
  rfl

theorem lookup_map_upd {b a : Nat} (m : EventMap)
    (l : List (Nat × EventMap)) (hne : b ≠ a) :
    heapLookup b (l.map (fun p => if p.1 = a then (a, m) else p))
      = heapLookup b l := by
  induction l with
  | nil => rfl
  | cons p rest ih =>
      obtain ⟨k₀, v₀⟩ := p
      rw [List.map_cons]
      by_cases hk : k₀ = a
      · have h1 : (if (k₀, v₀).1 = a then (a, m) else (k₀, v₀)) = (a, m) := by
          simp [hk]
        rw [h1, heapLookup_cons, heapLookup_cons, if_neg hne,
          if_neg (show ¬ b = k₀ from fun hEq => hne (hk ▸ hEq)), ih]
      · have h1 : (if (k₀, v₀).1 = a then (a, m) else (k₀, v₀)) = (k₀, v₀) := by
          simp [hk]
        rw [h1, heapLookup_cons, heapLookup_cons]
        by_cases hb : b = k₀
        · rw [if_pos hb, if_pos hb]
        · rw [if_neg hb, if_neg hb, ih]

/-- Overwriting the `Map` object at `a` leaves every other address's
contents unchanged. -/
theorem heapGet_heapSetAt_ne (hh : MapHeap) (a b : Nat) (m : EventMap)
    (hne : b ≠ a) : heapGet (heapSetAt hh a m) b = heapGet hh b := by
  unfold heapGet heapSetAt
  rw [lookup_map_upd m hh.store hne]

/-- A fresh allocation holds exactly the entries it was built from. -/
theorem heapGet_alloc_new (hh : MapHeap) (m : EventMap) :
    heapGet (heapAlloc hh m).1 (heapAlloc hh m).2 = m := by
  unfold heapGet heapAlloc
  simp [heapLookup]

/-- A fresh allocation does not change the contents of existing
addresses. -/
theorem heapGet_alloc_old (hh : MapHeap) (m : EventMap) (b : Nat)
    (hb : b ≠ hh.nextAddr) : heapGet (heapAlloc hh m).1 b = heapGet hh b := by
  unfold heapGet heapAlloc
  simp [heapLookup, hb]

end HeapLemmas

/-! ### Claim theorems -/

/-- C1: in a `handleDueAlarms` drain entered at `now`, every due
(`scheduled_at ≤ now`) alarm whose `repeat_interval` is absent is deleted
from storage (no row with its id remains after the drain), the handler is
invoked exactly once for it, the returned vector holds exactly one record
`{id, type, rescheduled := false, deleted := true}` for it, and the drain
completes without a propagated exception. -/
theorem nonrecurring_due_alarm_drained
    {J : Type} (jparse : String → Except String J) (jprint : J → String)
    (jempty : J) (now : Int) (handler : Alarm J → Except String Bool)
    (tbl : List AlarmRow) (r : AlarmRow) (due : List (Alarm J))
    (hnd : (tbl.map AlarmRow.id).Nodup) (hr : r ∈ tbl)
    (hdue : r.scheduled_at ≤ now) (hone : r.repeat_interval = none)
    (hok : parseAll jparse jempty (dueAlarmRows now tbl) = Except.ok due) :
    (handleDueAlarms jparse jprint jempty now handler tbl).results.filter
        (fun res => res.id = r.id) = [⟨r.id, r.type, false, true⟩]
    ∧ ((handleDueAlarms jparse jprint jempty now handler tbl).handled.filter
        (fun a => a.id = r.id)).length = 1
    ∧ (handleDueAlarms jparse jprint jempty now handler tbl).table.filter
        (fun x => x.id = r.id) = []
    ∧ (handleDueAlarms jparse jprint jempty now handler tbl).failed = none := by
  have hH : handleDueAlarms jparse jprint jempty now handler tbl
      = drainLoop jprint now handler due tbl := by
    unfold handleDueAlarms; rw [hok]
  have hF := parseAll_forall₂ jparse jempty hok
  have hdrow : (dueAlarmRows now tbl).filter (fun x => x.id = r.id) = [r] :=
    dueRows_filter_id hnd hr hdue
  have hpq : ∀ (y : AlarmRow) (b : Alarm J),
      parseAlarmRecord jparse jempty y = Except.ok b →
      (decide (y.id = r.id)) = (decide (b.id = r.id)) := by
    intro y b hb
    rw [(parseAlarmRecord_fields jparse jempty hb).1]
  obtain ⟨ar, har, hrar⟩ := forall₂_filter_single hF hpq hdrow
  obtain ⟨hid, hty, _, hri⟩ := parseAlarmRecord_fields jparse jempty hrar
  have hra : ar.repeatInterval = none := hri.trans hone
  refine ⟨?_, ?_, ?_, ?_⟩
  · rw [hH, drainLoop_results, List.filter_map]
    have hcong : List.filter
        ((fun res : AlarmHandleResult => decide (res.id = r.id)) ∘ resultRecord)
        due = List.filter (fun a : Alarm J => decide (a.id = r.id)) due := by
      apply List.filter_congr
      intro a _
      simp [Function.comp, resultRecord_id]
    rw [hcong, har, List.map_cons, List.map_nil,
      resultRecord_of_none hra, hid, hty]
  · rw [hH, drainLoop_handled, har]
    rfl
  · rw [hH, drainLoop_table]
    obtain ⟨l₁, l₂, hdec, h₁, h₂⟩ := filter_eq_single_decomp har
    rw [hdec]
    have happ : applyDue jprint now (l₁ ++ ar :: l₂) tbl
        = applyDue jprint now l₂
            ((stepAlarm jprint now (applyDue jprint now l₁ tbl) ar).1) := by
      unfold applyDue
      rw [List.foldl_append, List.foldl_cons]
    rw [happ]
    rw [applyDue_filterid_ne jprint now l₂ _ (fun a ha hEq => by
      have := h₂ a ha
      rw [hEq] at this
      simp at this)]
    have hstep : (stepAlarm jprint now (applyDue jprint now l₁ tbl) ar).1
        = deleteAlarmRows ar.id (applyDue jprint now l₁ tbl) := by
      simp only [stepAlarm, hra]
    rw [hstep, hid, filterid_delete_self]
  · rw [hH, drainLoop_failed]

/-- Witness for C1: one non-recurring alarm `"A"` due at `0`, drained at
`now = 1`. -/
theorem nonrecurring_due_alarm_drained_witness :
    ((([⟨"A", "custom", 0, none, none, 0⟩] : List AlarmRow).map AlarmRow.id).Nodup
      ∧ (⟨"A", "custom", 0, none, none, 0⟩ : AlarmRow)
          ∈ ([⟨"A", "custom", 0, none, none, 0⟩] : List AlarmRow)
      ∧ ((0 : Int) ≤ 1)
      ∧ parseAll (J := Unit) (fun _ => Except.ok ()) ()
          (dueAlarmRows 1 [⟨"A", "custom", 0, none, none, 0⟩])
          = Except.ok [⟨"A", "custom", 0, none, (), 0⟩])
    ∧ ((handleDueAlarms (J := Unit) (fun _ => Except.ok ()) (fun _ => "null") ()
          1 (fun _ => Except.ok true) [⟨"A", "custom", 0, none, none, 0⟩]).results.filter
          (fun res => res.id = "A") = [⟨"A", "custom", false, true⟩]
        ∧ ((handleDueAlarms (J := Unit) (fun _ => Except.ok ()) (fun _ => "null") ()
          1 (fun _ => Except.ok true) [⟨"A", "custom", 0, none, none, 0⟩]).handled.filter
          (fun a => a.id = "A")).length = 1
        ∧ (handleDueAlarms (J := Unit) (fun _ => Except.ok ()) (fun _ => "null") ()
          1 (fun _ => Except.ok true) [⟨"A", "custom", 0, none, none, 0⟩]).table.filter
          (fun x => x.id = "A") = []
        ∧ (handleDueAlarms (J := Unit) (fun _ => Except.ok ()) (fun _ => "null") ()
          1 (fun _ => Except.ok true) [⟨"A", "custom", 0, none, none, 0⟩]).failed = none) :=
  ⟨⟨by decide, by decide, by decide, rfl⟩,
   nonrecurring_due_alarm_drained (fun _ => Except.ok ()) (fun _ => "null") () 1
     (fun _ => Except.ok true) [⟨"A", "custom", 0, none, none, 0⟩]
     ⟨"A", "custom", 0, none, none, 0⟩ [⟨"A", "custom", 0, none, (), 0⟩]
     (by decide) (by decide) (by decide) rfl rfl⟩

/-- C2: in a `handleDueAlarms` drain entered at `now`, every due alarm with
`repeat_interval = iv > 0` keeps a single row under its id, with
`scheduled_at` updated to exactly `now + iv` (one reschedule, no catch-up;
`type` and `created_at` unchanged, payload re-serialized), and its result
record is `{rescheduled := true, deleted := false}`. -/
theorem recurring_due_alarm_rescheduled
    {J : Type} (jparse : String → Except String J) (jprint : J → String)
    (jempty : J) (now : Int) (handler : Alarm J → Except String Bool)
    (tbl : List AlarmRow) (r : AlarmRow) (iv : Int) (due : List (Alarm J))
    (hnd : (tbl.map AlarmRow.id).Nodup) (hr : r ∈ tbl)
    (hdue : r.scheduled_at ≤ now) (hrec : r.repeat_interval = some iv)
    (hpos : 0 < iv)
    (hok : parseAll jparse jempty (dueAlarmRows now tbl) = Except.ok due) :
    (∃ p : J, (handleDueAlarms jparse jprint jempty now handler tbl).table.filter
        (fun x => x.id = r.id)
      = [{ r with scheduled_at := now + iv, repeat_interval := some iv,
                  payload := some (jprint p) }])
    ∧ (handleDueAlarms jparse jprint jempty now handler tbl).results.filter
        (fun res => res.id = r.id) = [⟨r.id, r.type, true, false⟩]
    ∧ (handleDueAlarms jparse jprint jempty now handler tbl).failed = none := by
  have hH : handleDueAlarms jparse jprint jempty now handler tbl
      = drainLoop jprint now handler due tbl := by
    unfold handleDueAlarms; rw [hok]
  have hF := parseAll_forall₂ jparse jempty hok
  have hdrow : (dueAlarmRows now tbl).filter (fun x => x.id = r.id) = [r] :=
    dueRows_filter_id hnd hr hdue
  have hpq : ∀ (y : AlarmRow) (b : Alarm J),
      parseAlarmRecord jparse jempty y = Except.ok b →
      (decide (y.id = r.id)) = (decide (b.id = r.id)) := by
    intro y b hb
    rw [(parseAlarmRecord_fields jparse jempty hb).1]
  obtain ⟨ar, har, hrar⟩ := forall₂_filter_single hF hpq hdrow
  obtain ⟨hid, hty, _, hri⟩ := parseAlarmRecord_fields jparse jempty hrar
  have hra : ar.repeatInterval = some iv := hri.trans hrec
  have hnz : iv ≠ 0 := ne_of_gt hpos
  refine ⟨⟨ar.payload, ?_⟩, ?_, ?_⟩
  · rw [hH, drainLoop_table]
    obtain ⟨l₁, l₂, hdec, h₁, h₂⟩ := filter_eq_single_decomp har
    rw [hdec]
    have happ : applyDue jprint now (l₁ ++ ar :: l₂) tbl
        = applyDue jprint now l₂
            ((stepAlarm jprint now (applyDue jprint now l₁ tbl) ar).1) := by
      unfold applyDue
      rw [List.foldl_append, List.foldl_cons]
    rw [happ]
    rw [applyDue_filterid_ne jprint now l₂ _ (fun a ha hEq => by
      have := h₂ a ha
      rw [hEq] at this
      simp at this)]
    have hstep : (stepAlarm jprint now (applyDue jprint now l₁ tbl) ar).1
        = updateAlarmRows jprint ⟨ar.id, ar.type, now + iv, some iv, ar.payload⟩
            (applyDue jprint now l₁ tbl) := by
      simp only [stepAlarm, hra]
      rw [if_pos hnz]
    rw [hid] at hstep
    rw [hstep]
    have hpre : (applyDue jprint now l₁ tbl).filter (fun x => x.id = r.id)
        = [r] := by
      rw [applyDue_filterid_ne jprint now l₁ _ (fun a ha hEq => by
        have := h₁ a ha
        rw [hEq] at this
        simp at this)]
      exact filter_id_of_nodup hnd hr
    have hupd := filterid_update_self jprint
      (⟨r.id, ar.type, now + iv, some iv, ar.payload⟩ : ScheduleAlarmOptions J)
      (applyDue jprint now l₁ tbl)
    dsimp only at hupd
    rw [hupd, hpre, List.map_cons, List.map_nil]
  · rw [hH, drainLoop_results, List.filter_map]
    have hcong : List.filter
        ((fun res : AlarmHandleResult => decide (res.id = r.id)) ∘ resultRecord)
        due = List.filter (fun a : Alarm J => decide (a.id = r.id)) due := by
      apply List.filter_congr
      intro a _
      simp [Function.comp, resultRecord_id]
    rw [hcong, har, List.map_cons, List.map_nil,
      resultRecord_of_some hra hnz, hid, hty]
  · rw [hH, drainLoop_failed]

/-- Witness for C2: one recurring alarm `"R"` (`repeat_interval = 500`) due
at `100`, drained at `now = 100`. -/
theorem recurring_due_alarm_rescheduled_witness :
    ((([⟨"R", "cache-cleanup", 100, some 500, none, 0⟩] : List AlarmRow).map
        AlarmRow.id).Nodup
      ∧ (⟨"R", "cache-cleanup", 100, some 500, none, 0⟩ : AlarmRow)
          ∈ ([⟨"R", "cache-cleanup", 100, some 500, none, 0⟩] : List AlarmRow)
      ∧ ((100 : Int) ≤ 100) ∧ ((0 : Int) < 500)
      ∧ parseAll (J := Unit) (fun _ => Except.ok ()) ()
          (dueAlarmRows 100 [⟨"R", "cache-cleanup", 100, some 500, none, 0⟩])
          = Except.ok [⟨"R", "cache-cleanup", 100, some 500, (), 0⟩])
    ∧ ((∃ p : Unit,
          (handleDueAlarms (J := Unit) (fun _ => Except.ok ()) (fun _ => "null") ()
            100 (fun _ => Except.ok true)
            [⟨"R", "cache-cleanup", 100, some 500, none, 0⟩]).table.filter
            (fun x => x.id = "R")
          = [⟨"R", "cache-cleanup", 100 + 500, some 500, some ((fun _ => "null") p), 0⟩])
        ∧ (handleDueAlarms (J := Unit) (fun _ => Except.ok ()) (fun _ => "null") ()
            100 (fun _ => Except.ok true)
            [⟨"R", "cache-cleanup", 100, some 500, none, 0⟩]).results.filter
            (fun res => res.id = "R") = [⟨"R", "cache-cleanup", true, false⟩]
        ∧ (handleDueAlarms (J := Unit) (fun _ => Except.ok ()) (fun _ => "null") ()
            100 (fun _ => Except.ok true)
            [⟨"R", "cache-cleanup", 100, some 500, none, 0⟩]).failed = none) :=
  ⟨⟨by decide, by decide, by decide, by decide, rfl⟩,
   recurring_due_alarm_rescheduled (fun _ => Except.ok ()) (fun _ => "null") () 100
     (fun _ => Except.ok true) [⟨"R", "cache-cleanup", 100, some 500, none, 0⟩]
     ⟨"R", "cache-cleanup", 100, some 500, none, 0⟩ 500
     [⟨"R", "cache-cleanup", 100, some 500, (), 0⟩]
     (by decide) (by decide) (by decide) rfl (by decide) rfl⟩

/-- C3: within one drain the storage mutation precedes the handler call, so
the post-drain table and the returned result vector are independent of the
handler — a handler that throws (its error is caught, logged and swallowed)
prevents no deletion/update, aborts nothing, and the drain still returns one
result record per due alarm and invokes the handler on every due alarm. -/
theorem drain_handler_error_isolated
    {J : Type} (jparse : String → Except String J) (jprint : J → String)
    (jempty : J) (now : Int) (h₁ h₂ : Alarm J → Except String Bool)
    (tbl : List AlarmRow) (due : List (Alarm J))
    (hok : parseAll jparse jempty (dueAlarmRows now tbl) = Except.ok due) :
    (handleDueAlarms jparse jprint jempty now h₁ tbl).table
      = (handleDueAlarms jparse jprint jempty now h₂ tbl).table
    ∧ (handleDueAlarms jparse jprint jempty now h₁ tbl).results
      = (handleDueAlarms jparse jprint jempty now h₂ tbl).results
    ∧ (handleDueAlarms jparse jprint jempty now h₁ tbl).results.length
      = due.length
    ∧ (handleDueAlarms jparse jprint jempty now h₁ tbl).handled = due
    ∧ (handleDueAlarms jparse jprint jempty now h₁ tbl).failed = none := by
  have hH1 : handleDueAlarms jparse jprint jempty now h₁ tbl
      = drainLoop jprint now h₁ due tbl := by
    unfold handleDueAlarms; rw [hok]
  have hH2 : handleDueAlarms jparse jprint jempty now h₂ tbl
      = drainLoop jprint now h₂ due tbl := by
    unfold handleDueAlarms; rw [hok]
  refine ⟨?_, ?_, ?_, ?_, ?_⟩
  · rw [hH1, hH2, drainLoop_table, drainLoop_table]
  · rw [hH1, hH2, drainLoop_results, drainLoop_results]
  · rw [hH1, drainLoop_results, List.length_map]
  · rw [hH1, drainLoop_handled]
  · rw [hH1, drainLoop_failed]

/-- Witness for C3: the spec's handler-error-isolation scenario — two
non-recurring alarms `"A"` (due at `0`) and `"B"` (due at `1`), drained at
`now = 1` with a handler that throws on `"A"`, compared against a handler
that never throws. -/
theorem drain_handler_error_isolated_witness :
    (parseAll (J := Unit) (fun _ => Except.ok ()) ()
        (dueAlarmRows 1 [⟨"A", "custom", 0, none, none, 0⟩,
                         ⟨"B", "custom", 1, none, none, 0⟩])
        = Except.ok [⟨"A", "custom", 0, none, (), 0⟩,
                     ⟨"B", "custom", 1, none, (), 0⟩])
    ∧ ((handleDueAlarms (J := Unit) (fun _ => Except.ok ()) (fun _ => "null") () 1
          (fun a => if a.id = "A" then Except.error "boom" else Except.ok true)
          [⟨"A", "custom", 0, none, none, 0⟩, ⟨"B", "custom", 1, none, none, 0⟩]).table
        = (handleDueAlarms (J := Unit) (fun _ => Except.ok ()) (fun _ => "null") () 1
          (fun _ => Except.ok true)
          [⟨"A", "custom", 0, none, none, 0⟩, ⟨"B", "custom", 1, none, none, 0⟩]).table
      ∧ (handleDueAlarms (J := Unit) (fun _ => Except.ok ()) (fun _ => "null") () 1
          (fun a => if a.id = "A" then Except.error "boom" else Except.ok true)
          [⟨"A", "custom", 0, none, none, 0⟩, ⟨"B", "custom", 1, none, none, 0⟩]).results
        = (handleDueAlarms (J := Unit) (fun _ => Except.ok ()) (fun _ => "null") () 1
          (fun _ => Except.ok true)
          [⟨"A", "custom", 0, none, none, 0⟩, ⟨"B", "custom", 1, none, none, 0⟩]).results
      ∧ (handleDueAlarms (J := Unit) (fun _ => Except.ok ()) (fun _ => "null") () 1
          (fun a => if a.id = "A" then Except.error "boom" else Except.ok true)
          [⟨"A", "custom", 0, none, none, 0⟩, ⟨"B", "custom", 1, none, none, 0⟩]).results.length
        = ([⟨"A", "custom", 0, none, (), 0⟩,
            ⟨"B", "custom", 1, none, (), 0⟩] : List (Alarm Unit)).length
      ∧ (handleDueAlarms (J := Unit) (fun _ => Except.ok ()) (fun _ => "null") () 1
          (fun a => if a.id = "A" then Except.error "boom" else Except.ok true)
          [⟨"A", "custom", 0, none, none, 0⟩, ⟨"B", "custom", 1, none, none, 0⟩]).handled
        = [⟨"A", "custom", 0, none, (), 0⟩, ⟨"B", "custom", 1, none, (), 0⟩]
      ∧ (handleDueAlarms (J := Unit) (fun _ => Except.ok ()) (fun _ => "null") () 1
          (fun a => if a.id = "A" then Except.error "boom" else Except.ok true)
          [⟨"A", "custom", 0, none, none, 0⟩, ⟨"B", "custom", 1, none, none, 0⟩]).failed
        = none) :=
  ⟨rfl,
   drain_handler_error_isolated (fun _ => Except.ok ()) (fun _ => "null") () 1
     (fun a => if a.id = "A" then Except.error "boom" else Except.ok true)
     (fun _ => Except.ok true)
     [⟨"A", "custom", 0, none, none, 0⟩, ⟨"B", "custom", 1, none, none, 0⟩]
     [⟨"A", "custom", 0, none, (), 0⟩, ⟨"B", "custom", 1, none, (), 0⟩] rfl⟩

/-- C4: `rescheduleNextAlarm` issues at most one `setAlarm` per invocation,
and only when the earliest stored alarm differs from the volatile
`(currentAlarmId, currentAlarmTime)`; called twice back-to-back with no
storage change, the second invocation issues no `setAlarm`; on an empty
`alarms` table both volatile fields are cleared and `setAlarm` is not
called. -/
theorem rearm_only_on_change (tbl : List AlarmRow) (s : AMState) :
    (rescheduleNextAlarm tbl s).2.length ≤ 1
    ∧ (rescheduleNextAlarm tbl (rescheduleNextAlarm tbl s).1).2 = []
    ∧ ((rescheduleNextAlarm tbl s).2 ≠ [] →
        ∃ e, getEarliestAlarm tbl = some e
          ∧ (s.currentAlarmId ≠ some e.id
             ∨ s.currentAlarmTime ≠ some e.scheduled_at))
    ∧ rescheduleNextAlarm [] s = (⟨none, none⟩, []) := by
  refine ⟨?_, ?_, ?_, ?_⟩
  · cases he : getEarliestAlarm tbl with
    | none => simp [rescheduleNextAlarm, he]
    | some e =>
        by_cases h1 : s.currentAlarmId ≠ some e.id
            ∨ s.currentAlarmTime ≠ some e.scheduled_at
        · simp [rescheduleNextAlarm, he, h1]
        · simp [rescheduleNextAlarm, he, h1]
  · cases he : getEarliestAlarm tbl with
    | none => simp [rescheduleNextAlarm, he]
    | some e =>
        by_cases h1 : s.currentAlarmId ≠ some e.id
            ∨ s.currentAlarmTime ≠ some e.scheduled_at
        · simp [rescheduleNextAlarm, he, h1]
        · simp [rescheduleNextAlarm, he, h1]
  · intro hne
    cases he : getEarliestAlarm tbl with
    | none => simp [rescheduleNextAlarm, he] at hne
    | some e =>
        by_cases h1 : s.currentAlarmId ≠ some e.id
            ∨ s.currentAlarmTime ≠ some e.scheduled_at
        · exact ⟨e, rfl, h1⟩
        · simp [rescheduleNextAlarm, he, h1] at hne
  · rfl

/-- Witness for C4 at a concrete table and volatile state, also exercising
the only-on-difference implication. -/
theorem rearm_only_on_change_witness :
    ((rescheduleNextAlarm [⟨"A", "custom", 7, none, none, 0⟩]
        (rescheduleNextAlarm [⟨"A", "custom", 7, none, none, 0⟩]
          ⟨none, none⟩).1).2 = [])
    ∧ (∃ e, getEarliestAlarm [⟨"A", "custom", 7, none, none, 0⟩] = some e
        ∧ ((⟨none, none⟩ : AMState).currentAlarmId ≠ some e.id
           ∨ (⟨none, none⟩ : AMState).currentAlarmTime ≠ some e.scheduled_at)) :=
  ⟨(rearm_only_on_change [⟨"A", "custom", 7, none, none, 0⟩] ⟨none, none⟩).2.1,
   (rearm_only_on_change [⟨"A", "custom", 7, none, none, 0⟩] ⟨none, none⟩).2.2.1
     (by decide)⟩

/-- C5: `schedule` with an id already present raises the storage insert
error (the `PRIMARY KEY` violation — no silent upsert): the table is
returned unchanged and still holds exactly the original row under that id,
and no rearm happens (volatile state unchanged, no `setAlarm` call). -/
theorem schedule_duplicate_id_fails
    {J : Type} (jprint : J → String) (now : Int)
    (opts : ScheduleAlarmOptions J) (tbl : List AlarmRow) (s : AMState)
    (r : AlarmRow) (hnd : (tbl.map AlarmRow.id).Nodup) (hr : r ∈ tbl)
    (hid : r.id = opts.id) :
    schedule jprint now opts tbl s
      = (tbl, s, [], some "UNIQUE constraint failed: alarms.id")
    ∧ tbl.filter (fun x => x.id = opts.id) = [r] := by
  have hdup : tbl.any (fun x => x.id = opts.id) = true := by
    rw [List.any_eq_true]
    exact ⟨r, hr, by simpa using hid⟩
  constructor
  · unfold schedule insertAlarmRows
    rw [if_pos hdup]
  · rw [← hid]
    exact filter_id_of_nodup hnd hr

/-- Witness for C5: re-scheduling id `"A"` over an existing `"A"` row. -/
theorem schedule_duplicate_id_fails_witness :
    ((([⟨"A", "custom", 3, none, some "p", 2⟩] : List AlarmRow).map
        AlarmRow.id).Nodup
      ∧ (⟨"A", "custom", 3, none, some "p", 2⟩ : AlarmRow)
          ∈ ([⟨"A", "custom", 3, none, some "p", 2⟩] : List AlarmRow))
    ∧ (schedule (J := Unit) (fun _ => "null") 9 ⟨"A", "custom", 10, none, ()⟩
        [⟨"A", "custom", 3, none, some "p", 2⟩] ⟨some "A", some 3⟩
        = ([⟨"A", "custom", 3, none, some "p", 2⟩], ⟨some "A", some 3⟩, [],
           some "UNIQUE constraint failed: alarms.id")
      ∧ ([⟨"A", "custom", 3, none, some "p", 2⟩] : List AlarmRow).filter
          (fun x => x.id = "A") = [⟨"A", "custom", 3, none, some "p", 2⟩]) :=
  ⟨⟨by decide, by decide⟩,
   schedule_duplicate_id_fails (fun _ => "null") 9 ⟨"A", "custom", 10, none, ()⟩
     [⟨"A", "custom", 3, none, some "p", 2⟩] ⟨some "A", some 3⟩
     ⟨"A", "custom", 3, none, some "p", 2⟩ (by decide) (by decide) rfl⟩

/-- C6 counterexample: the same two-row sequence (columns `["a"]`, rows
`[[1], [2]]`) split into two batches decodes to one record in the
array-of-batches shape — the non-cursor branch reads only `batches[0]` —
but to two records in the cursor shape, so the three shapes do not decode
every row sequence identically. -/
theorem parseRows_shapes_disagree_on_multibatch :
    parseRowsBatches (V := Int)
        [⟨some ["a"], none, some [[1]], none⟩,
         ⟨some ["a"], none, some [[2]], none⟩]
      ≠ parseRowsCursor (V := Int) [⟨["a"], [[1]]⟩, ⟨["a"], [[2]]⟩] := by
  decide

/-- C6 amended: when the driver delivers the row sequence in a single batch
with a nonempty column list, the three supported shapes — array of
`{columns, rows}` batches, the `{columnNames, results}` single-object
variant, and the cursor — all decode to the same column-keyed record
sequence; with several batches the non-cursor branch decodes only the
first. -/
theorem parseRows_shapes_agree_single_batch {V : Type} (cols : List String)
    (rows : List (List V)) (hc : cols ≠ []) :
    parseRowsBatches [⟨some cols, none, some rows, none⟩]
        = rows.map (decodeRow cols)
    ∧ parseRowsSingle ⟨none, some cols, none, some rows⟩
        = rows.map (decodeRow cols)
    ∧ parseRowsCursor [⟨cols, rows⟩] = rows.map (decodeRow cols) := by
  have hcne : cols.isEmpty = false := by
    cases cols with
    | nil => exact absurd rfl hc
    | cons c cs => rfl
  refine ⟨?_, ?_, ?_⟩
  · cases rows with
    | nil => simp [parseRowsBatches, hcne]
    | cons r rs => simp [parseRowsBatches, hcne]
  · cases rows with
    | nil => simp [parseRowsSingle, parseRowsBatches, hcne]
    | cons r rs => simp [parseRowsSingle, parseRowsBatches, hcne]
  · simp [parseRowsCursor]

/-- Witness for the amended C6 at columns `["a", "b"]` and rows
`[[1, 2], [3]]`. -/
theorem parseRows_shapes_agree_single_batch_witness :
    ((["a", "b"] : List String) ≠ [])
    ∧ (parseRowsBatches (V := Int) [⟨some ["a", "b"], none, some [[1, 2], [3]], none⟩]
        = ([[1, 2], [3]] : List (List Int)).map (decodeRow ["a", "b"])
      ∧ parseRowsSingle (V := Int) ⟨none, some ["a", "b"], none, some [[1, 2], [3]]⟩
        = ([[1, 2], [3]] : List (List Int)).map (decodeRow ["a", "b"])
      ∧ parseRowsCursor (V := Int) [⟨["a", "b"], [[1, 2], [3]]⟩]
        = ([[1, 2], [3]] : List (List Int)).map (decodeRow ["a", "b"])) :=
  ⟨by decide,
   parseRows_shapes_agree_single_batch ["a", "b"] [[1, 2], [3]] (by decide)⟩

/-- C7 counterexample: one due alarm whose payload column holds the
non-JSON string `"nope"` (the parse function rejects it, as `JSON.parse`
would).  Contrary to the claim, the drain does not log-and-delete the row:
it fails with the propagated parse error, the row is still in the table,
and no handler ran. -/
theorem corrupt_payload_counterexample :
    (handleDueAlarms (J := Unit)
        (fun str => if str = "nope" then Except.error "SyntaxError"
                    else Except.ok ())
        (fun _ => "null") () 5 (fun _ => Except.ok true)
        [⟨"A", "custom", 0, none, some "nope", 0⟩]).failed = some "SyntaxError"
    ∧ (handleDueAlarms (J := Unit)
        (fun str => if str = "nope" then Except.error "SyntaxError"
                    else Except.ok ())
        (fun _ => "null") () 5 (fun _ => Except.ok true)
        [⟨"A", "custom", 0, none, some "nope", 0⟩]).table
        = [⟨"A", "custom", 0, none, some "nope", 0⟩]
    ∧ (handleDueAlarms (J := Unit)
        (fun str => if str = "nope" then Except.error "SyntaxError"
                    else Except.ok ())
        (fun _ => "null") () 5 (fun _ => Except.ok true)
        [⟨"A", "custom", 0, none, some "nope", 0⟩]).handled = [] :=
  ⟨rfl, rfl, rfl⟩

/-- C7 amended: when any due row's payload fails `JSON.parse`, the drain
propagates the exception instead of logging and deleting: it returns with
the table unchanged (the corrupt row stays in place, to be encountered
again by the next drain), no result records, no handler invocations, and
nothing logged. -/
theorem corrupt_payload_drain_throws
    {J : Type} (jparse : String → Except String J) (jprint : J → String)
    (jempty : J) (now : Int) (handler : Alarm J → Except String Bool)
    (tbl : List AlarmRow) (r : AlarmRow) (e : String)
    (hr : r ∈ dueAlarmRows now tbl)
    (herr : parseAlarmRecord jparse jempty r = Except.error e) :
    ∃ e', handleDueAlarms jparse jprint jempty now handler tbl
      = ⟨tbl, [], [], [], some e'⟩ := by
  obtain ⟨e', he'⟩ := parseAll_error_of_mem jparse jempty hr herr
  exact ⟨e', by unfold handleDueAlarms; rw [he']⟩

/-- Witness for the amended C7 at a concrete corrupt row. -/
theorem corrupt_payload_drain_throws_witness :
    ((⟨"A", "custom", 0, none, some "nope", 0⟩ : AlarmRow)
        ∈ dueAlarmRows 5 [⟨"A", "custom", 0, none, some "nope", 0⟩]
      ∧ parseAlarmRecord (J := Unit)
          (fun str => if str = "nope" then Except.error "SyntaxError"
                      else Except.ok ()) ()
          ⟨"A", "custom", 0, none, some "nope", 0⟩ = Except.error "SyntaxError")
    ∧ ∃ e', handleDueAlarms (J := Unit)
        (fun str => if str = "nope" then Except.error "SyntaxError"
                    else Except.ok ())
        (fun _ => "null") () 5 (fun _ => Except.ok true)
        [⟨"A", "custom", 0, none, some "nope", 0⟩]
      = ⟨[⟨"A", "custom", 0, none, some "nope", 0⟩], [], [], [], some e'⟩ :=
  ⟨⟨by decide, rfl⟩,
   corrupt_payload_drain_throws
     (fun str => if str = "nope" then Except.error "SyntaxError"
                 else Except.ok ())
     (fun _ => "null") () 5 (fun _ => Except.ok true)
     [⟨"A", "custom", 0, none, some "nope", 0⟩]
     ⟨"A", "custom", 0, none, some "nope", 0⟩ "SyntaxError" (by decide) rfl⟩

/-- C8: `restoreScheduledEvents` adds an index entry for exactly those
persisted alarms whose payload `type` is `"xstate-delay"` and whose
`scheduledAt` is strictly in the future (`scheduledAt > now`); alarms at or
before `now`, and alarms of other payload types, produce no entry
(pre-existing keys are kept). -/
theorem restore_scheduled_events_mem
    (now : Int) (alarms : List PersistedAlarm) (m : EventMap) (k : String) :
    mapMem k (restoreScheduledEvents now alarms m)
      ↔ mapMem k m
        ∨ ∃ a ∈ alarms, a.payload.ptype = "xstate-delay"
            ∧ now < a.scheduledAt ∧ a.payload.scheduledEventId = k := by
  induction alarms generalizing m with
  | nil => simp [restoreScheduledEvents]
  | cons a rest ih =>
      have hstep : restoreScheduledEvents now (a :: rest) m
          = restoreScheduledEvents now rest
              (if a.payload.ptype = "xstate-delay" then
                if a.scheduledAt - now > 0 then
                  mapSet a.payload.scheduledEventId
                    ⟨a.payload.sourceSessionId, a.payload.targetSessionId,
                     a.payload.event, a.scheduledAt - now,
                     lastDotComponent a.payload.scheduledEventId,
                     a.scheduledAt - (a.scheduledAt - now)⟩ m
                else m
              else m) := rfl
      rw [hstep]
      by_cases h1 : a.payload.ptype = "xstate-delay"
      · by_cases h2 : a.scheduledAt - now > 0
        · rw [if_pos h1, if_pos h2, ih, mapMem_mapSet]
          have hnow : now < a.scheduledAt := by omega
          constructor
          · rintro ((hk | hk) | ⟨b, hb, hq⟩)
            · exact Or.inr ⟨a, List.mem_cons_self a rest, h1, hnow, hk.symm⟩
            · exact Or.inl hk
            · exact Or.inr ⟨b, List.mem_cons_of_mem a hb, hq⟩
          · rintro (hk | ⟨b, hb, hq⟩)
            · exact Or.inl (Or.inr hk)
            · rcases List.mem_cons.mp hb with hb | hb
              · subst hb
                exact Or.inl (Or.inl hq.2.2.symm)
              · exact Or.inr ⟨b, hb, hq⟩
        · rw [if_pos h1, if_neg h2, ih]
          constructor
          · rintro (hk | ⟨b, hb, hq⟩)
            · exact Or.inl hk
            · exact Or.inr ⟨b, List.mem_cons_of_mem a hb, hq⟩
          · rintro (hk | ⟨b, hb, hq⟩)
            · exact Or.inl hk
            · rcases List.mem_cons.mp hb with hb | hb
              · subst hb
                exact absurd hq.2.1 (by omega)
              · exact Or.inr ⟨b, hb, hq⟩
      · rw [if_neg h1, ih]
        constructor
        · rintro (hk | ⟨b, hb, hq⟩)
          · exact Or.inl hk
          · exact Or.inr ⟨b, List.mem_cons_of_mem a hb, hq⟩
        · rintro (hk | ⟨b, hb, hq⟩)
          · exact Or.inl hk
          · rcases List.mem_cons.mp hb with hb | hb
            · subst hb
              exact absurd hq.1 h1
            · exact Or.inr ⟨b, hb, hq⟩

/-- C9 counterexample: `Math.random()` ranges over `0 ≤ r < 1` and may
return exactly `0`; `NOOP_CLOCK.setTimeout` returns that output unchanged,
so the token of a call whose generator output is `0` is zero, refuting
"returns a non-zero token for every call". -/
theorem noop_setTimeout_zero_token :
    ((0 : ℚ) ≤ 0 ∧ (0 : ℚ) < 1)
    ∧ noopSetTimeout (fun _ => ()) 5 0 = 0 :=
  ⟨⟨le_refl 0, by norm_num⟩, rfl⟩

/-- C9 amended: `NOOP_CLOCK.setTimeout` schedules nothing and returns the
`Math.random()` output unchanged as an opaque token — so the token is
non-zero whenever the generator output is (the generator's range `[0, 1)`
does include `0`) — and `clearTimeout` does nothing for every input. -/
theorem noop_clock_behaviour (fn : Unit → Unit) (delay : Int) (rand : ℚ) :
    noopSetTimeout fn delay rand = rand
    ∧ (rand ≠ 0 → noopSetTimeout fn delay rand ≠ 0)
    ∧ noopClearTimeout rand = () :=
  ⟨rfl, fun hr => hr, rfl⟩

/-- Witness for the amended C9 at generator output `1/2`. -/
theorem noop_clock_behaviour_witness :
    ((1/2 : ℚ) ≠ 0)
    ∧ (noopSetTimeout (fun _ => ()) 5 (1/2) = 1/2
      ∧ ((1/2 : ℚ) ≠ 0 → noopSetTimeout (fun _ => ()) 5 (1/2) ≠ 0)
      ∧ noopClearTimeout (1/2) = ()) :=
  ⟨by norm_num, noop_clock_behaviour (fun _ => ()) 5 (1/2)⟩

/-- C10: `getScheduledEvents` returns a fresh `Map` — a new address holding
the same entries as the internal `scheduledEventsMap` at call time, distinct
from the internal map's address — and mutating the returned map (`set` or
`delete`) leaves the internal map's contents (and hence everything computed
from them) unchanged. -/
theorem getScheduledEvents_returns_copy (h : MapHeap) (hwf : heapWF h)
    (k : String) (v : ScheduledEventSnapshot) (k' : String) :
    heapGet (getScheduledEvents h).1 (getScheduledEvents h).2
      = heapGet h h.internalAddr
    ∧ (getScheduledEvents h).2 ≠ h.internalAddr
    ∧ heapGet (heapMapSet (getScheduledEvents h).1 (getScheduledEvents h).2 k v)
        h.internalAddr = heapGet h h.internalAddr
    ∧ heapGet (heapMapDelete (getScheduledEvents h).1 (getScheduledEvents h).2 k')
        h.internalAddr = heapGet h h.internalAddr := by
  have hne : h.internalAddr ≠ h.nextAddr := Nat.ne_of_lt hwf.1
  have ha2 : (getScheduledEvents h).2 = h.nextAddr := rfl
  have hold : heapGet (getScheduledEvents h).1 h.internalAddr
      = heapGet h h.internalAddr :=
    heapGet_alloc_old h (heapGet h h.internalAddr) h.internalAddr hne
  refine ⟨?_, ?_, ?_, ?_⟩
  · exact heapGet_alloc_new h (heapGet h h.internalAddr)
  · rw [ha2]; exact Ne.symm hne
  · unfold heapMapSet
    rw [heapGet_heapSetAt_ne _ _ _ _ (by rw [ha2]; exact hne), hold]
  · unfold heapMapDelete
    rw [heapGet_heapSetAt_ne _ _ _ _ (by rw [ha2]; exact hne), hold]

/-- Witness for C10 at a one-entry internal map. -/
theorem getScheduledEvents_returns_copy_witness :
    heapWF ⟨[(0, [("k", ⟨"s", "t", "E", 5, "k", 0⟩)])], 0, 1⟩
    ∧ (heapGet (getScheduledEvents
          ⟨[(0, [("k", ⟨"s", "t", "E", 5, "k", 0⟩)])], 0, 1⟩).1
        (getScheduledEvents
          ⟨[(0, [("k", ⟨"s", "t", "E", 5, "k", 0⟩)])], 0, 1⟩).2
        = heapGet ⟨[(0, [("k", ⟨"s", "t", "E", 5, "k", 0⟩)])], 0, 1⟩ 0
      ∧ (getScheduledEvents
          ⟨[(0, [("k", ⟨"s", "t", "E", 5, "k", 0⟩)])], 0, 1⟩).2 ≠ 0
      ∧ heapGet (heapMapSet (getScheduledEvents
            ⟨[(0, [("k", ⟨"s", "t", "E", 5, "k", 0⟩)])], 0, 1⟩).1
          (getScheduledEvents
            ⟨[(0, [("k", ⟨"s", "t", "E", 5, "k", 0⟩)])], 0, 1⟩).2
          "j" ⟨"s2", "t2", "F", 9, "j", 1⟩) 0
        = heapGet ⟨[(0, [("k", ⟨"s", "t", "E", 5, "k", 0⟩)])], 0, 1⟩ 0
      ∧ heapGet (heapMapDelete (getScheduledEvents
            ⟨[(0, [("k", ⟨"s", "t", "E", 5, "k", 0⟩)])], 0, 1⟩).1
          (getScheduledEvents
            ⟨[(0, [("k", ⟨"s", "t", "E", 5, "k", 0⟩)])], 0, 1⟩).2 "k") 0
        = heapGet ⟨[(0, [("k", ⟨"s", "t", "E", 5, "k", 0⟩)])], 0, 1⟩ 0) :=
  ⟨by constructor
      · decide
      · intro p hp
        rcases List.mem_singleton.mp hp with h
        rw [h]
        decide,
   getScheduledEvents_returns_copy
     ⟨[(0, [("k", ⟨"s", "t", "E", 5, "k", 0⟩)])], 0, 1⟩
     ⟨by decide, by
        intro p hp
        rcases List.mem_singleton.mp hp with h
        rw [h]
        decide⟩
     "j" ⟨"s2", "t2", "F", 9, "j", 1⟩ "k"⟩

end ActorKit
